import Mathlib

/-!
Verification development for the business-day calculator (app.py).

Dates are modelled as Rata Die day numbers (proleptic Gregorian calendar,
day 1 = 0001-01-01, which was a Monday).  A Python `datetime` value carries
only its calendar date here, so it is represented by its day number; adding
`timedelta(days=1)` is `+ 1` and `<=` on datetimes is `≤` on day numbers.
Day-of-week numbering follows Python's `date.weekday()`: Monday = 0 … Sunday = 6.
-/

/-- Gregorian leap-year test (models the rule used by Python's `datetime`). -/
def isLeapYear (y : Nat) : Bool :=
  (y % 4 == 0 && y % 100 != 0) || y % 400 == 0

/-- Number of days in a month of the proleptic Gregorian calendar. -/
def daysInMonth (y m : Nat) : Nat :=
  if m = 2 then (if isLeapYear y then 29 else 28)
  else if m = 4 ∨ m = 6 ∨ m = 9 ∨ m = 11 then 30
  else 31

/-- Days in year `y` that precede the first day of month `m`. -/
def daysBeforeMonth (y m : Nat) : Nat :=
  (List.range (m - 1)).foldl (fun acc i => acc + daysInMonth y (i + 1)) 0

/-- Rata Die day number of the calendar date `y-m-d` (0001-01-01 ↦ 1). -/
def toRataDie (y m d : Nat) : Nat :=
  365 * (y - 1) + (y - 1) / 4 - (y - 1) / 100 + (y - 1) / 400 + daysBeforeMonth y m + d

/-- Python's `date.weekday()`: Monday = 0 … Sunday = 6.
Rata Die day 1 (0001-01-01) was a Monday. -/
def weekday (date : Nat) : Nat := (date + 6) % 7

/-- Split a character list on every occurrence of the dash character,
like Python's `str.split('-')`. -/
def splitDash : List Char → List (List Char)
  | [] => [[]]
  | c :: rest =>
    if c = '-' then [] :: splitDash rest
    else
      match splitDash rest with
      | [] => [[c]]
      | f :: fs => (c :: f) :: fs

/-- Numeric value of a list of decimal digit characters. -/
def digitsToNat (l : List Char) : Nat :=
  l.foldl (fun a c => 10 * a + (c.toNat - 48)) 0

/-- Modelled external collaborator: Python's
`datetime.strptime(s, "%Y-%m-%d")`, returning the Rata Die day number of the
parsed date, or `none` on a `ValueError`.  CPython accepts exactly four digits
for `%Y`, one or two digits for `%m` (value 1–12) and `%d` (value 1–31), and
the `datetime` constructor additionally requires the year to be at least 1 and
the day to exist in the given month. -/
def parseDate (s : String) : Option Nat :=
  match splitDash s.data with
  | [ys, ms, ds] =>
    if ys.length == 4 && ys.all Char.isDigit &&
        decide (1 ≤ ms.length) && decide (ms.length ≤ 2) && ms.all Char.isDigit &&
        decide (1 ≤ ds.length) && decide (ds.length ≤ 2) && ds.all Char.isDigit then
      let y := digitsToNat ys
      let m := digitsToNat ms
      let d := digitsToNat ds
      if decide (1 ≤ y) && decide (1 ≤ m) && decide (m ≤ 12) &&
          decide (1 ≤ d) && decide (d ≤ daysInMonth y m) then
        some (toRataDie y m d)
      else none
    else none
  | _ => none

/-- Inverse calendar conversion: year, month and day of a Rata Die day
number (standard era-based civil-from-days algorithm). -/
def civilFromDays (n : Nat) : Nat × Nat × Nat :=
  let ds := n + 305
  let era := ds / 146097
  let doe := ds % 146097
  let yoe := (doe - doe / 1460 + doe / 36524 - doe / 146096) / 365
  let y := yoe + era * 400
  let doy := doe - (365 * yoe + yoe / 4 - yoe / 100)
  let mp := (5 * doy + 2) / 153
  let d := doy - (153 * mp + 2) / 5 + 1
  let m := if mp < 10 then mp + 3 else mp - 9
  (if m ≤ 2 then y + 1 else y, m, d)

/-- Zero-pad a number to two digits. -/
def pad2 (n : Nat) : String :=
  if n < 10 then "0" ++ Nat.repr n else Nat.repr n

/-- Zero-pad a number to four digits. -/
def pad4 (n : Nat) : String :=
  if n < 10 then "000" ++ Nat.repr n
  else if n < 100 then "00" ++ Nat.repr n
  else if n < 1000 then "0" ++ Nat.repr n
  else Nat.repr n

/-- Modelled external collaborator: Python's `date.strftime("%Y-%m-%d")` on the
date with the given Rata Die day number. -/
def dateToString (n : Nat) : String :=
  let c := civilFromDays n
  pad4 c.1 ++ "-" ++ pad2 c.2.1 ++ "-" ++ pad2 c.2.2

/-! ## Business-day engine (`is_business_day`, `calculate_days_between`,
`get_future_business_date` from app.py) -/

/-- `is_business_day` from app.py: makeup days are always business days;
otherwise a day is a business day iff it is neither a weekend day nor a
holiday. -/
def is_business_day (date : Nat)
    (weekend_days_set holidays_set makeup_days_set : Finset Nat) : Bool :=
  if date ∈ makeup_days_set then true
  else
    let is_weekend := decide (weekday date ∈ weekend_days_set)
    let is_holiday := decide (date ∈ holidays_set)
    !is_weekend && !is_holiday

/-- The `while current_date <= end_date` loop of `calculate_days_between`:
`business_days` is the count accumulated so far and `remaining` is the number
of loop iterations still to run, `end_date + 1 - current_date` (the loop
stops as soon as `current_date` passes `end_date`). -/
def count_loop (weekend_days_set holidays_set makeup_days_set : Finset Nat)
    (remaining current_date business_days : Nat) : Nat :=
  match remaining with
  | 0 => business_days
  | r + 1 =>
    count_loop weekend_days_set holidays_set makeup_days_set r (current_date + 1)
      (if is_business_day current_date weekend_days_set holidays_set makeup_days_set then
        business_days + 1
      else business_days)

/-- `calculate_days_between` from app.py: counts business days day-by-day from
`start_date + 1` through `end_date` inclusive. -/
def calculate_days_between (start_date end_date : Nat)
    (weekend_days_set holidays_set makeup_days_set : Finset Nat) : Nat :=
  count_loop weekend_days_set holidays_set makeup_days_set
    (end_date + 1 - (start_date + 1)) (start_date + 1) 0

/-- The `while days_counted < business_days` loop of
`get_future_business_date`.  The Python loop has no bound, so it is embedded
with explicit `fuel`: `none` means the fuel ran out before the loop finished
(`∀ fuel, … = none` is nontermination of the source loop). -/
def future_loop (weekend_days_set holidays_set makeup_days_set : Finset Nat)
    (business_days fuel current_date days_counted : Nat) : Option Nat :=
  if days_counted < business_days then
    match fuel with
    | 0 => none
    | f + 1 =>
      if is_business_day (current_date + 1) weekend_days_set holidays_set makeup_days_set then
        future_loop weekend_days_set holidays_set makeup_days_set business_days f
          (current_date + 1) (days_counted + 1)
      else
        future_loop weekend_days_set holidays_set makeup_days_set business_days f
          (current_date + 1) days_counted
  else some current_date

/-- `get_future_business_date` from app.py (fuelled): walks forward one
calendar day at a time until `business_days` business days have been counted. -/
def get_future_business_date (fuel : Nat) (start_date business_days : Nat)
    (weekend_days_set holidays_set makeup_days_set : Finset Nat) : Option Nat :=
  future_loop weekend_days_set holidays_set makeup_days_set business_days fuel start_date 0

/-! ## Calendar rule sets, merging and resolution -/

/-- Python's `sorted(list(s))` for a set `s`: the sorted duplicate-free
enumeration of a finite set, implemented with an executable insertion sort
(well defined because sorted permutations coincide). -/
def sortFinset {α : Type} [LinearOrder α] (s : Finset α) : List α :=
  Quot.liftOn s.val (fun l => List.insertionSort (· ≤ ·) l) (fun a b h =>
    List.eq_of_perm_of_sorted
      (((List.perm_insertionSort _ a).trans h).trans (List.perm_insertionSort _ b).symm)
      (List.sorted_insertionSort _ a) (List.sorted_insertionSort _ b))

/-- A calendar rules dictionary as passed around by app.py: weekend day
numbers, holiday date strings and makeup date strings.  Normalized rule sets
always carry all three keys. -/
structure CalendarRules where
  weekend_days : List Nat
  holidays : List String
  makeup_days : List String
deriving DecidableEq

/-- An entry of `custom_rules.json`: every field is optional (`display_name`
is ignored here, since it plays no part in rule resolution). -/
structure OverrideRecord where
  weekend_days : Option (List Nat)
  holidays : Option (List String)
  makeup_days : Option (List String)
deriving DecidableEq

/-- The in-memory `custom_rules` table: identifier to override record. -/
def OverrideStore : Type := String → Option OverrideRecord

/-- Modelled external collaborator: the `holidays` library.  For a country
code and optional subdivision, `holidays.country_holidays` either raises (the
pair is not recognized, `none` here) or yields, per year, the set of holiday
date strings. -/
def HolidayProvider : Type := String → Option String → Option (Nat → Finset String)

/-- `merge_calendar_rules` from app.py: empty input yields the all-empty rule
set, a singleton is returned unchanged, and two or more rule sets are merged
by field-wise set union, materialized as sorted lists. -/
def merge_calendar_rules : List CalendarRules → CalendarRules
  | [] => ⟨[], [], []⟩
  | [rules] => rules
  | calendar_rules_list =>
    let all_weekend_days := calendar_rules_list.foldl
      (fun acc rules => acc ∪ rules.weekend_days.toFinset) (∅ : Finset Nat)
    let all_holidays := calendar_rules_list.foldl
      (fun acc rules => acc ∪ rules.holidays.toFinset) (∅ : Finset String)
    let all_makeup_days := calendar_rules_list.foldl
      (fun acc rules => acc ∪ rules.makeup_days.toFinset) (∅ : Finset String)
    ⟨sortFinset all_weekend_days, sortFinset all_holidays,
      sortFinset all_makeup_days⟩

/-- Helper for `get_calendar_rules`: split a calendar identifier at the first
dash, like Python's `calendar_id.split('-', 1)` guarded by `'-' in calendar_id`. -/
def splitFirstDashAux : List Char → List Char → Option (String × String)
  | [], _ => none
  | c :: rest, acc =>
    if c = '-' then some (⟨acc.reverse⟩, ⟨rest⟩)
    else splitFirstDashAux rest (c :: acc)

/-- Split an identifier into country code and subdivision at the first dash,
or `none` when it contains no dash. -/
def splitFirstDash (s : String) : Option (String × String) :=
  splitFirstDashAux s.data []

/-- Step 2 of `get_calendar_rules`: query the holidays library, with the
identifier split into country and subdivision when it contains a dash. -/
def providerLookup (provider : HolidayProvider) (calendar_id : String) :
    Option (Nat → Finset String) :=
  match splitFirstDash calendar_id with
  | some (country_code, subdiv) => provider country_code (some subdiv)
  | none => provider calendar_id none

/-- Steps 3 and 4 of `get_calendar_rules`: merge the accumulated rules with
the custom override record (replace the weekend list when specified, union
holidays and makeup days), then materialize the holiday and makeup sets as
sorted lists. -/
def applyCustom (store : OverrideStore) (calendar_id : String)
    (weekend_days : List Nat) (holidays makeup_days : Finset String) : CalendarRules :=
  match store calendar_id with
  | none => ⟨weekend_days, sortFinset holidays, sortFinset makeup_days⟩
  | some custom =>
    let weekend_days' := match custom.weekend_days with
      | some w => w
      | none => weekend_days
    let holidays' := match custom.holidays with
      | some hl => if 0 < hl.length then hl.foldl (fun acc s => insert s acc) holidays else holidays
      | none => holidays
    let makeup_days' := match custom.makeup_days with
      | some ml => ml.foldl (fun acc s => insert s acc) makeup_days
      | none => makeup_days
    ⟨weekend_days', sortFinset holidays', sortFinset makeup_days'⟩

/-- `get_calendar_rules` from app.py: defaults (weekend Saturday/Sunday, no
holidays, no makeup days), then library holidays for every requested year,
then custom overrides.  `none` models the `ValueError` raised when the
identifier is in neither the holidays library nor the custom rules. -/
def get_calendar_rules (provider : HolidayProvider) (store : OverrideStore)
    (calendar_id : String) (years : List Nat) : Option CalendarRules :=
  let weekend_days : List Nat := [5, 6]
  match providerLookup provider calendar_id with
  | some lib =>
    let holidays := years.foldl (fun acc year => acc ∪ lib year) (∅ : Finset String)
    some (applyCustom store calendar_id weekend_days holidays ∅)
  | none =>
    match store calendar_id with
    | none => none
    | some _ => some (applyCustom store calendar_id weekend_days ∅ ∅)

/-! ## The orchestrator `perform_calculation` -/

deriving instance DecidableEq for Except

/-- Result dictionary of `perform_calculation`. -/
inductive CalcResult where
  | daysBetween (business_days : Nat) (start_date end_date : String)
  | futureDate (future_date start_date : String) (business_days : Int)
deriving DecidableEq

/-- The holiday/makeup parsing loops of `perform_calculation`: parse each date
string, skipping entries that fail to parse. -/
def parseDateSet (l : List String) : Finset Nat :=
  l.foldl
    (fun acc s =>
      match parseDate s with
      | some d => insert d acc
      | none => acc)
    ∅

/-- `perform_calculation` from app.py.  `Except.error` carries the
`ValueError` message; the outer `none` means the projection loop ran out of
fuel (source-level nontermination).  `end_date = some ""` is treated like a
missing end date, mirroring Python's falsiness test `if not end_date`. -/
def perform_calculation (fuel : Nat) (operation start_date : String)
    (calendar_rules : CalendarRules) (end_date : Option String)
    (business_days : Option Int) : Option (Except String CalcResult) :=
  match parseDate start_date with
  | none => some (Except.error ("Invalid start_date format: " ++ start_date))
  | some start_dt =>
    let weekend_days_set : Finset Nat := calendar_rules.weekend_days.toFinset
    let holidays_set : Finset Nat := parseDateSet calendar_rules.holidays
    let makeup_days_set : Finset Nat := parseDateSet calendar_rules.makeup_days
    if operation = "days_between" then
      match end_date with
      | none => some (Except.error "end_date is required for days_between operation")
      | some ed =>
        if ed.data.isEmpty then
          some (Except.error "end_date is required for days_between operation")
        else
          match parseDate ed with
          | none => some (Except.error ("Invalid end_date format: " ++ ed))
          | some end_dt =>
            if end_dt ≤ start_dt then
              some (Except.error "end_date must be after start_date")
            else
              some (Except.ok (CalcResult.daysBetween
                (calculate_days_between start_dt end_dt weekend_days_set holidays_set
                  makeup_days_set)
                start_date ed))
    else if operation = "get_future_date" then
      match business_days with
      | none => some (Except.error "business_days is required for get_future_date operation")
      | some b =>
        if b < 0 then
          some (Except.error "business_days must be a non-negative integer")
        else
          match get_future_business_date fuel start_dt b.toNat weekend_days_set holidays_set
              makeup_days_set with
          | none => none
          | some future_dt =>
            some (Except.ok (CalcResult.futureDate (dateToString future_dt) start_date b))
    else some (Except.error ("Invalid operation: " ++ operation))

/-- Spec-side operation: a rule set with its unparsable holiday and makeup
entries removed (weekend days untouched). -/
def remove_malformed (r : CalendarRules) : CalendarRules :=
  ⟨r.weekend_days,
    r.holidays.filter (fun s => (parseDate s).isSome),
    r.makeup_days.filter (fun s => (parseDate s).isSome)⟩

/-! ## Helper lemmas -/

lemma coe_sortFinset {α : Type} [LinearOrder α] (s : Finset α) :
    (↑(sortFinset s) : Multiset α) = s.val := by
  obtain ⟨m, hm⟩ := s
  induction m using Quot.inductionOn
  exact Quot.sound (List.perm_insertionSort _ _)

lemma sorted_sortFinset {α : Type} [LinearOrder α] (s : Finset α) :
    List.Sorted (· ≤ ·) (sortFinset s) := by
  obtain ⟨m, hm⟩ := s
  induction m using Quot.inductionOn
  exact List.sorted_insertionSort _ _

lemma sortFinset_eq_sort {α : Type} [LinearOrder α] (s : Finset α) :
    sortFinset s = s.sort (· ≤ ·) := by
  refine List.eq_of_perm_of_sorted ?_ (sorted_sortFinset s) (Finset.sort_sorted _ _)
  rw [← Multiset.coe_eq_coe, coe_sortFinset, Finset.sort_eq]

lemma mem_sortFinset {α : Type} [LinearOrder α] {s : Finset α} {x : α} :
    x ∈ sortFinset s ↔ x ∈ s := by
  rw [sortFinset_eq_sort]
  exact Finset.mem_sort _

lemma length_sortFinset {α : Type} [LinearOrder α] (s : Finset α) :
    (sortFinset s).length = s.card := by
  rw [sortFinset_eq_sort]
  exact Finset.length_sort _

lemma nodup_sortFinset {α : Type} [LinearOrder α] (s : Finset α) :
    (sortFinset s).Nodup := by
  rw [sortFinset_eq_sort]
  exact Finset.sort_nodup _ _

lemma sortFinset_sorted_lt {α : Type} [LinearOrder α] (s : Finset α) :
    List.Sorted (· < ·) (sortFinset s) := by
  rw [sortFinset_eq_sort]
  exact Finset.sort_sorted_lt s

lemma mem_foldl_union {α β : Type} [DecidableEq β] (f : α → Finset β) :
    ∀ (l : List α) (init : Finset β) (x : β),
      x ∈ l.foldl (fun acc r => acc ∪ f r) init ↔ x ∈ init ∨ ∃ r ∈ l, x ∈ f r := by
  intro l
  induction l with
  | nil => simp
  | cons a t ih =>
    intro init x
    simp only [List.foldl_cons, ih, Finset.mem_union, List.mem_cons]
    constructor
    · rintro ((hx | hx) | ⟨r, hr, hx⟩)
      · exact Or.inl hx
      · exact Or.inr ⟨a, Or.inl rfl, hx⟩
      · exact Or.inr ⟨r, Or.inr hr, hx⟩
    · rintro (hx | ⟨r, (rfl | hr), hx⟩)
      · exact Or.inl (Or.inl hx)
      · exact Or.inl (Or.inr hx)
      · exact Or.inr ⟨r, hr, hx⟩

lemma mem_foldl_insert {β : Type} [DecidableEq β] :
    ∀ (l : List β) (init : Finset β) (x : β),
      x ∈ l.foldl (fun acc s => insert s acc) init ↔ x ∈ init ∨ x ∈ l := by
  intro l
  induction l with
  | nil => simp
  | cons a t ih =>
    intro init x
    simp only [List.foldl_cons, ih, Finset.mem_insert, List.mem_cons]
    tauto

lemma parseDateSet_foldl_filter :
    ∀ (l : List String) (init : Finset Nat),
      (l.filter (fun s => (parseDate s).isSome)).foldl
          (fun acc s =>
            match parseDate s with
            | some d => insert d acc
            | none => acc) init
        = l.foldl
            (fun acc s =>
              match parseDate s with
              | some d => insert d acc
              | none => acc) init := by
  intro l
  induction l with
  | nil => simp
  | cons a t ih =>
    intro init
    cases hp : parseDate a with
    | some d =>
      simp only [List.filter_cons, hp, Option.isSome_some, if_true, List.foldl_cons]
      exact ih _
    | none =>
      simp only [List.filter_cons, hp, Option.isSome_none, Bool.false_eq_true, if_false,
        List.foldl_cons]
      exact ih _

lemma parseDateSet_remove_malformed (l : List String) :
    parseDateSet (l.filter (fun s => (parseDate s).isSome)) = parseDateSet l :=
  parseDateSet_foldl_filter l ∅

lemma parseDate_data_ne_empty {s : String} {d : Nat} (h : parseDate s = some d) :
    s.data.isEmpty = false := by
  cases hs : s.data with
  | nil =>
    unfold parseDate at h
    rw [hs] at h
    simp [splitDash] at h
  | cons c t => simp

lemma Ico_insert_left (a r : Nat) :
    Finset.Ico a (a + (r + 1)) = insert a (Finset.Ico (a + 1) (a + 1 + r)) := by
  ext x
  simp only [Finset.mem_Ico, Finset.mem_insert]
  omega

lemma count_loop_eq (w h m : Finset Nat) :
    ∀ (r current acc : Nat),
      count_loop w h m r current acc
        = acc + ((Finset.Ico current (current + r)).filter
            (fun d => is_business_day d w h m = true)).card := by
  intro r
  induction r with
  | zero => intro current acc; simp [count_loop]
  | succ r ih =>
    intro current acc
    have step : count_loop w h m (r + 1) current acc
        = count_loop w h m r (current + 1)
            (if is_business_day current w h m then acc + 1 else acc) := rfl
    rw [step, ih, Ico_insert_left, Finset.filter_insert]
    have hnot : current ∉ (Finset.Ico (current + 1) (current + 1 + r)).filter
        (fun d => is_business_day d w h m = true) := by
      intro hmem
      rw [Finset.mem_filter, Finset.mem_Ico] at hmem
      obtain ⟨⟨h1, _⟩, _⟩ := hmem
      omega
    by_cases hb : is_business_day current w h m = true
    · rw [if_pos hb, if_pos hb, Finset.card_insert_of_not_mem hnot]
      omega
    · rw [if_neg hb, if_neg hb]

lemma calculate_days_between_eq (s e : Nat) (w h m : Finset Nat) :
    calculate_days_between s e w h m
      = ((Finset.Ioc s e).filter (fun d => is_business_day d w h m = true)).card := by
  unfold calculate_days_between
  rw [count_loop_eq, Nat.zero_add]
  have hset : Finset.Ico (s + 1) (s + 1 + (e + 1 - (s + 1))) = Finset.Ioc s e := by
    ext x
    simp only [Finset.mem_Ico, Finset.mem_Ioc]
    omega
  rw [hset]

lemma future_loop_of_le (w h m : Finset Nat) (target fuel current counted : Nat)
    (hc : target ≤ counted) :
    future_loop w h m target fuel current counted = some current := by
  unfold future_loop
  rw [if_neg (by omega)]

lemma future_loop_none (w h m : Finset Nat) (target start : Nat)
    (hnone : ∀ d, start < d → is_business_day d w h m = false) :
    ∀ fuel current counted, start ≤ current → counted < target →
      future_loop w h m target fuel current counted = none := by
  intro fuel
  induction fuel with
  | zero =>
    intro current counted _hsc hlt
    unfold future_loop
    rw [if_pos hlt]
  | succ f ih =>
    intro current counted hsc hlt
    have step : future_loop w h m target (f + 1) current counted
        = if is_business_day (current + 1) w h m then
            future_loop w h m target f (current + 1) (counted + 1)
          else future_loop w h m target f (current + 1) counted := by
      rw [future_loop, if_pos hlt]
    rw [step]
    have hb := hnone (current + 1) (by omega)
    simp only [hb, Bool.false_eq_true, if_false]
    exact ih (current + 1) counted (by omega) hlt

lemma future_loop_reaches (w h m : Finset Nat) (target : Nat) :
    ∀ (n current counted : Nat), counted < target →
      target - counted ≤ ((Finset.Ioc current (current + n)).filter
          (fun d => is_business_day d w h m = true)).card →
      ∃ r, future_loop w h m target n current counted = some r ∧
        is_business_day r w h m = true ∧ current < r ∧ r ≤ current + n := by
  intro n
  induction n with
  | zero =>
    intro current counted hlt hcard
    exfalso
    simp only [Nat.add_zero, Finset.Ioc_self, Finset.filter_empty, Finset.card_empty] at hcard
    omega
  | succ n ih =>
    intro current counted hlt hcard
    have hsplit : Finset.Ioc current (current + (n + 1))
        = insert (current + 1) (Finset.Ioc (current + 1) (current + 1 + n)) := by
      ext x
      simp only [Finset.mem_Ioc, Finset.mem_insert]
      omega
    rw [hsplit, Finset.filter_insert] at hcard
    have hnot : current + 1 ∉ (Finset.Ioc (current + 1) (current + 1 + n)).filter
        (fun d => is_business_day d w h m = true) := by
      intro hmem
      rw [Finset.mem_filter, Finset.mem_Ioc] at hmem
      obtain ⟨⟨h1, _⟩, _⟩ := hmem
      omega
    have step : future_loop w h m target (n + 1) current counted
        = if is_business_day (current + 1) w h m then
            future_loop w h m target n (current + 1) (counted + 1)
          else future_loop w h m target n (current + 1) counted := by
      rw [future_loop, if_pos hlt]
    by_cases hb : is_business_day (current + 1) w h m = true
    · rw [if_pos hb] at step
      by_cases hdone : target ≤ counted + 1
      · refine ⟨current + 1, ?_, hb, by omega, by omega⟩
        rw [step]
        exact future_loop_of_le w h m target n (current + 1) (counted + 1) hdone
      · have hcard' : target - (counted + 1)
            ≤ ((Finset.Ioc (current + 1) (current + 1 + n)).filter
                (fun d => is_business_day d w h m = true)).card := by
          rw [if_pos hb, Finset.card_insert_of_not_mem hnot] at hcard
          omega
        obtain ⟨r, hr, hbr, hlt2, hle2⟩ := ih (current + 1) (counted + 1) (by omega) hcard'
        exact ⟨r, by rw [step]; exact hr, hbr, by omega, by omega⟩
    · rw [if_neg hb] at step
      have hcard' : target - counted
          ≤ ((Finset.Ioc (current + 1) (current + 1 + n)).filter
              (fun d => is_business_day d w h m = true)).card := by
        rw [if_neg hb] at hcard
        exact hcard
      obtain ⟨r, hr, hbr, hlt2, hle2⟩ := ih (current + 1) counted hlt hcard'
      exact ⟨r, by rw [step]; exact hr, hbr, by omega, by omega⟩

/-! ## Claims -/

/-- C1: `is_business_day` returns `true` for every makeup day regardless of
weekend or holiday membership; on any other day it returns `false` exactly
when the day-of-week is a weekend day or the date is a holiday. -/
theorem is_business_day_makeup_precedence (d : Nat) (w h m : Finset Nat) :
    (d ∈ m → is_business_day d w h m = true)
    ∧ (d ∉ m → (is_business_day d w h m = false ↔ (weekday d ∈ w ∨ d ∈ h))) := by
  refine ⟨fun hmem => ?_, fun hmem => ?_⟩
  · simp [is_business_day, hmem]
  · by_cases hw : weekday d ∈ w <;> by_cases hh : d ∈ h <;>
      simp [is_business_day, hmem, hw, hh]

theorem is_business_day_makeup_precedence_witness :
    is_business_day (toRataDie 2024 10 19) {5, 6} {toRataDie 2024 10 19}
      {toRataDie 2024 10 19} = true :=
  (is_business_day_makeup_precedence (toRataDie 2024 10 19) {5, 6} {toRataDie 2024 10 19}
    {toRataDie 2024 10 19}).1 (by decide)

/-- C7: merging the empty sequence yields the all-empty rule set (not an
error) and merging a single rule set returns it unchanged. -/
theorem merge_calendar_rules_identity :
    merge_calendar_rules [] = ⟨[], [], []⟩
    ∧ ∀ r : CalendarRules, merge_calendar_rules [r] = r :=
  ⟨rfl, fun _ => rfl⟩

/-- C6: for two or more rule sets, merge is the field-wise union of weekend
days, holidays and makeup days; consequently, for duplicate-free disjoint
holiday lists the merged holiday count is the sum of the two counts, and the
standard weekend merged with a Friday/Saturday weekend yields Friday through
Sunday. -/
theorem merge_calendar_rules_union_spec :
    (∀ (a b : CalendarRules) (t : List CalendarRules),
      (∀ x : Nat, x ∈ (merge_calendar_rules (a :: b :: t)).weekend_days
          ↔ ∃ r ∈ a :: b :: t, x ∈ r.weekend_days)
      ∧ (∀ s : String, s ∈ (merge_calendar_rules (a :: b :: t)).holidays
          ↔ ∃ r ∈ a :: b :: t, s ∈ r.holidays)
      ∧ (∀ s : String, s ∈ (merge_calendar_rules (a :: b :: t)).makeup_days
          ↔ ∃ r ∈ a :: b :: t, s ∈ r.makeup_days))
    ∧ (∀ a b : CalendarRules, a.holidays.Nodup → b.holidays.Nodup →
        (∀ s ∈ a.holidays, s ∉ b.holidays) →
        (merge_calendar_rules [a, b]).holidays.length
          = a.holidays.length + b.holidays.length)
    ∧ (∀ a b : CalendarRules, a.weekend_days = [5, 6] → b.weekend_days = [4, 5] →
        (merge_calendar_rules [a, b]).weekend_days = [4, 5, 6]) := by
  refine ⟨fun a b t => ⟨fun x => ?_, fun s => ?_, fun s => ?_⟩,
    fun a b h1 h2 hdisj => ?_, fun a b ha hb => ?_⟩
  · simp only [merge_calendar_rules]
    rw [mem_sortFinset, mem_foldl_union]
    simp [List.mem_toFinset]
  · simp only [merge_calendar_rules]
    rw [mem_sortFinset, mem_foldl_union]
    simp [List.mem_toFinset]
  · simp only [merge_calendar_rules]
    rw [mem_sortFinset, mem_foldl_union]
    simp [List.mem_toFinset]
  · simp only [merge_calendar_rules, List.foldl_cons, List.foldl_nil, Finset.empty_union]
    rw [length_sortFinset, Finset.card_union_of_disjoint, List.toFinset_card_of_nodup h1,
      List.toFinset_card_of_nodup h2]
    rw [Finset.disjoint_left]
    intro x hx
    rw [List.mem_toFinset] at hx ⊢
    exact hdisj x hx
  · simp only [merge_calendar_rules, List.foldl_cons, List.foldl_nil]
    rw [ha, hb]
    decide

theorem merge_calendar_rules_union_spec_witness :
    (merge_calendar_rules [⟨[5, 6], ["2024-07-04"], []⟩,
      ⟨[4, 5], ["2024-12-26"], []⟩]).holidays.length = 1 + 1 :=
  merge_calendar_rules_union_spec.2.1 ⟨[5, 6], ["2024-07-04"], []⟩
    ⟨[4, 5], ["2024-12-26"], []⟩ (by decide) (by decide) (by decide)

/-- C3: `perform_calculation` rejects a negative business-day count with the
`business_days must be a non-negative integer` error, and projecting zero
business days returns the start date unchanged (zero-iteration walk), for
every start date, rule set and fuel bound. -/
theorem project_zero_and_negative_count :
    (∀ (fuel : Nat) (s : String) (rules : CalendarRules) (ds : Nat) (b : Int),
      parseDate s = some ds → b < 0 →
      perform_calculation fuel "get_future_date" s rules none (some b)
        = some (Except.error "business_days must be a non-negative integer"))
    ∧ (∀ (fuel start : Nat) (w h m : Finset Nat),
      get_future_business_date fuel start 0 w h m = some start) := by
  constructor
  · intro fuel s rules ds b hs hb
    simp only [perform_calculation, hs, if_true]
    rw [if_pos hb, if_neg (show ¬("get_future_date" = "days_between") by decide)]
  · intro fuel start w h m
    unfold get_future_business_date
    exact future_loop_of_le w h m 0 fuel start 0 (le_refl 0)

theorem project_zero_and_negative_count_witness :
    perform_calculation 0 "get_future_date" "2024-10-14" ⟨[5, 6], [], []⟩ none (some (-1))
      = some (Except.error "business_days must be a non-negative integer") :=
  project_zero_and_negative_count.1 0 "2024-10-14" ⟨[5, 6], [], []⟩ (toRataDie 2024 10 14)
    (-1) (by decide) (by decide)

/-- C10: if no date strictly after `start` is a business day, the projection
walk never reaches a positive target, whatever the fuel (the unbounded source
loop does not terminate); when at least `count` business days lie in some
window strictly after `start`, the walk terminates, and for a positive count
the returned date is itself a business day strictly after `start`. -/
theorem get_future_business_date_termination (start count : Nat) (w h m : Finset Nat) :
    ((∀ d, start < d → is_business_day d w h m = false) → 1 ≤ count →
      ∀ fuel, get_future_business_date fuel start count w h m = none)
    ∧ ((∃ n, count ≤ ((Finset.Ioc start (start + n)).filter
          (fun d => is_business_day d w h m = true)).card) →
      ∃ fuel r, get_future_business_date fuel start count w h m = some r
        ∧ (1 ≤ count → is_business_day r w h m = true ∧ start < r)) := by
  constructor
  · intro hnone hcount fuel
    exact future_loop_none w h m count start hnone fuel start 0 (le_refl start) (by omega)
  · rintro ⟨n, hn⟩
    by_cases hc : 1 ≤ count
    · obtain ⟨r, hr, hbr, hlt, _⟩ :=
        future_loop_reaches w h m count n start 0 (by omega) (by simpa using hn)
      exact ⟨n, r, hr, fun _ => ⟨hbr, hlt⟩⟩
    · refine ⟨0, start, ?_, fun hc1 => absurd hc1 hc⟩
      exact future_loop_of_le w h m count 0 start 0 (by omega)

theorem get_future_business_date_termination_witness :
    ∃ fuel r, get_future_business_date fuel (toRataDie 2024 10 14) 1 {5, 6} ∅ ∅ = some r
      ∧ (1 ≤ 1 → is_business_day r {5, 6} ∅ ∅ = true ∧ toRataDie 2024 10 14 < r) :=
  (get_future_business_date_termination (toRataDie 2024 10 14) 1 {5, 6} ∅ ∅).2
    ⟨1, by decide⟩

/-- C2: for parseable start and end dates, the days-between operation fails
with the `end_date must be after start_date` error exactly when the end date
is not strictly after the start date (including equality); otherwise it
returns the number of business days in the half-open interval `(start, end]`,
and for `end = start + 1` day it returns 1 or 0 according to that single
day's business-day status. -/
theorem calculate_days_between_spec (fuel : Nat) (s e : String)
    (rules : CalendarRules) (ds de : Nat)
    (hs : parseDate s = some ds) (he : parseDate e = some de) :
    (perform_calculation fuel "days_between" s rules (some e) none
        = some (Except.error "end_date must be after start_date") ↔ de ≤ ds)
    ∧ (ds < de →
      perform_calculation fuel "days_between" s rules (some e) none
        = some (Except.ok (CalcResult.daysBetween
            (((Finset.Ioc ds de).filter (fun d =>
                is_business_day d rules.weekend_days.toFinset
                  (parseDateSet rules.holidays) (parseDateSet rules.makeup_days)
                  = true)).card)
            s e)))
    ∧ (de = ds + 1 →
      perform_calculation fuel "days_between" s rules (some e) none
        = some (Except.ok (CalcResult.daysBetween
            (if is_business_day de rules.weekend_days.toFinset
                (parseDateSet rules.holidays) (parseDateSet rules.makeup_days)
              then 1 else 0)
            s e))) := by
  have hne : e.data.isEmpty = false := parseDate_data_ne_empty he
  have hmain : perform_calculation fuel "days_between" s rules (some e) none
      = if de ≤ ds then some (Except.error "end_date must be after start_date")
        else some (Except.ok (CalcResult.daysBetween
            (calculate_days_between ds de rules.weekend_days.toFinset
              (parseDateSet rules.holidays) (parseDateSet rules.makeup_days)) s e)) := by
    simp only [perform_calculation, hs, he, hne, Bool.false_eq_true, if_false, if_true]
  refine ⟨?_, fun hlt => ?_, fun hde => ?_⟩
  · rw [hmain]
    by_cases hle : de ≤ ds
    · simp [hle]
    · simp [hle]
  · rw [hmain, if_neg (by omega), calculate_days_between_eq]
  · rw [hmain, if_neg (by omega), calculate_days_between_eq]
    subst hde
    rw [Nat.Ioc_succ_singleton, Finset.filter_singleton]
    by_cases hb : is_business_day (ds + 1) rules.weekend_days.toFinset
        (parseDateSet rules.holidays) (parseDateSet rules.makeup_days) = true
    · rw [if_pos hb, if_pos hb]
      simp
    · rw [if_neg hb, if_neg hb]
      simp

theorem calculate_days_between_spec_witness :
    perform_calculation 0 "days_between" "2024-10-14" ⟨[5, 6], [], []⟩
        (some "2024-10-16") none
      = some (Except.ok (CalcResult.daysBetween
          (((Finset.Ioc (toRataDie 2024 10 14) (toRataDie 2024 10 16)).filter (fun d =>
              is_business_day d
                (CalendarRules.mk [5, 6] [] []).weekend_days.toFinset
                (parseDateSet (CalendarRules.mk [5, 6] [] []).holidays)
                (parseDateSet (CalendarRules.mk [5, 6] [] []).makeup_days) = true)).card)
          "2024-10-14" "2024-10-16")) :=
  (calculate_days_between_spec 0 "2024-10-14" "2024-10-16" ⟨[5, 6], [], []⟩
    (toRataDie 2024 10 14) (toRataDie 2024 10 16) (by decide) (by decide)).2.1 (by decide)

/-- C9: malformed holiday or makeup date strings are skipped silently during
evaluation: `perform_calculation` returns the same result on a rule set with
its unparsable entries removed as on the original; and a calendar whose
override record exists always resolves, whatever date strings the record
holds. -/
theorem malformed_dates_skipped :
    (∀ (fuel : Nat) (operation start_date : String) (rules : CalendarRules)
      (end_date : Option String) (business_days : Option Int),
      perform_calculation fuel operation start_date (remove_malformed rules)
          end_date business_days
        = perform_calculation fuel operation start_date rules end_date business_days)
    ∧ (∀ (provider : HolidayProvider) (store : OverrideStore) (calendar_id : String)
        (years : List Nat) (rec : OverrideRecord), store calendar_id = some rec →
        (get_calendar_rules provider store calendar_id years).isSome = true) := by
  constructor
  · intro fuel op s rules e b
    simp only [perform_calculation, remove_malformed]
    rw [parseDateSet_remove_malformed, parseDateSet_remove_malformed]
  · intro p store id years rec hrec
    simp only [get_calendar_rules]
    cases hl : providerLookup p id with
    | some lib => simp
    | none =>
      rw [hrec]
      simp

theorem malformed_dates_skipped_witness :
    (get_calendar_rules (fun _ _ => none)
        (fun id => if id = "Z" then
          some ⟨none, some ["not-a-date", "2024-12-25"], none⟩ else none)
        "Z" [2024]).isSome = true :=
  malformed_dates_skipped.2 (fun _ _ => none)
    (fun id => if id = "Z" then
      some ⟨none, some ["not-a-date", "2024-12-25"], none⟩ else none)
    "Z" [2024] ⟨none, some ["not-a-date", "2024-12-25"], none⟩ (by decide)

lemma applyCustom_spec (store : OverrideStore) (id : String) (wk : List Nat)
    (hols mks : Finset String) :
    ((applyCustom store id wk hols mks).weekend_days
        = match store id with
          | some custom =>
            match custom.weekend_days with
            | some w => w
            | none => wk
          | none => wk)
    ∧ (∀ s : String, s ∈ (applyCustom store id wk hols mks).holidays ↔
        (s ∈ hols ∨ ∃ custom hl, store id = some custom ∧ custom.holidays = some hl
          ∧ s ∈ hl))
    ∧ (∀ s : String, s ∈ (applyCustom store id wk hols mks).makeup_days ↔
        (s ∈ mks ∨ ∃ custom ml, store id = some custom ∧ custom.makeup_days = some ml
          ∧ s ∈ ml)) := by
  cases hstore : store id with
  | none =>
    refine ⟨by simp [applyCustom, hstore], fun s => ?_, fun s => ?_⟩
    · simp [applyCustom, hstore, mem_sortFinset]
    · simp [applyCustom, hstore, mem_sortFinset]
  | some custom =>
    refine ⟨?_, fun s => ?_, fun s => ?_⟩
    · cases hw : custom.weekend_days <;> simp [applyCustom, hstore, hw]
    · cases hh : custom.holidays with
      | none => simp [applyCustom, hstore, hh, mem_sortFinset]
      | some hl =>
        by_cases hlen : 0 < hl.length
        · simp [applyCustom, hstore, hh, hlen, mem_sortFinset, mem_foldl_insert]
        · have hnil : hl = [] := by
            cases hl with
            | nil => rfl
            | cons a t => simp at hlen
          subst hnil
          simp [applyCustom, hstore, hh, mem_sortFinset]
    · cases hm : custom.makeup_days with
      | none => simp [applyCustom, hstore, hm, mem_sortFinset]
      | some ml => simp [applyCustom, hstore, hm, mem_sortFinset, mem_foldl_insert]

lemma applyCustom_sorted (store : OverrideStore) (id : String) (wk : List Nat)
    (hols mks : Finset String) :
    List.Sorted (· < ·) (applyCustom store id wk hols mks).holidays
    ∧ (applyCustom store id wk hols mks).holidays.Nodup
    ∧ List.Sorted (· < ·) (applyCustom store id wk hols mks).makeup_days
    ∧ (applyCustom store id wk hols mks).makeup_days.Nodup := by
  cases hstore : store id <;>
    simp only [applyCustom, hstore] <;>
    exact ⟨sortFinset_sorted_lt _, nodup_sortFinset _, sortFinset_sorted_lt _,
      nodup_sortFinset _⟩

lemma applyCustom_weekend (store : OverrideStore) (id : String) (wk : List Nat)
    (hols mks : Finset String) :
    (applyCustom store id wk hols mks).weekend_days = wk
    ∨ ∃ custom, store id = some custom
        ∧ custom.weekend_days = some (applyCustom store id wk hols mks).weekend_days := by
  cases hstore : store id with
  | none => exact Or.inl (by simp [applyCustom, hstore])
  | some custom =>
    cases hw : custom.weekend_days with
    | none => exact Or.inl (by simp [applyCustom, hstore, hw])
    | some w => exact Or.inr ⟨custom, rfl, by simp [applyCustom, hstore, hw]⟩

/-- C4: resolution fails (the `ValueError` of `get_calendar_rules`, the
spec's UnknownCalendar) exactly when the identifier is absent from both the
holidays library and the custom override store; in particular a provider
failure is swallowed whenever an override record exists, and a rule set is
still returned. -/
theorem get_calendar_rules_unknown_iff
    (provider : HolidayProvider) (store : OverrideStore) (calendar_id : String)
    (years : List Nat) :
    (get_calendar_rules provider store calendar_id years = none
      ↔ providerLookup provider calendar_id = none ∧ store calendar_id = none)
    ∧ (providerLookup provider calendar_id = none →
      ∀ rec, store calendar_id = some rec →
        ∃ r, get_calendar_rules provider store calendar_id years = some r) := by
  constructor
  · simp only [get_calendar_rules]
    cases hl : providerLookup provider calendar_id with
    | some lib => simp
    | none =>
      cases hs : store calendar_id with
      | none => simp
      | some rec => simp
  · intro hl rec hrec
    simp only [get_calendar_rules, hl, hrec]
    exact ⟨_, rfl⟩

theorem get_calendar_rules_unknown_iff_witness :
    ∃ r, get_calendar_rules (fun _ _ => none)
        (fun id => if id = "CN" then some ⟨none, none, some ["2024-02-04"]⟩ else none)
        "CN" [2024] = some r :=
  (get_calendar_rules_unknown_iff (fun _ _ => none)
    (fun id => if id = "CN" then some ⟨none, none, some ["2024-02-04"]⟩ else none)
    "CN" [2024]).2 (by rfl) ⟨none, none, some ["2024-02-04"]⟩ (by decide)

/-- C5: a successful resolution starts from the defaults (weekend Saturday
and Sunday, no holidays, no makeup days), unions the provider's holidays into
the holiday set, and then applies the override record if one exists: the
weekend list is replaced entirely when specified, override holidays and
makeup days are unioned in, and an absent field leaves the value unchanged. -/
theorem get_calendar_rules_characterization
    (provider : HolidayProvider) (store : OverrideStore) (calendar_id : String)
    (years : List Nat) (r : CalendarRules)
    (hr : get_calendar_rules provider store calendar_id years = some r) :
    (r.weekend_days
        = match store calendar_id with
          | some custom =>
            match custom.weekend_days with
            | some w => w
            | none => [5, 6]
          | none => [5, 6])
    ∧ (∀ s : String, s ∈ r.holidays ↔
        ((∃ lib, providerLookup provider calendar_id = some lib ∧ ∃ y ∈ years, s ∈ lib y)
          ∨ (∃ custom hl, store calendar_id = some custom ∧ custom.holidays = some hl
              ∧ s ∈ hl)))
    ∧ (∀ s : String, s ∈ r.makeup_days ↔
        (∃ custom ml, store calendar_id = some custom ∧ custom.makeup_days = some ml
          ∧ s ∈ ml)) := by
  simp only [get_calendar_rules] at hr
  cases hl : providerLookup provider calendar_id with
  | some lib =>
    rw [hl] at hr
    have hr' := Option.some.inj hr
    subst hr'
    obtain ⟨hwk, hhol, hmk⟩ := applyCustom_spec store calendar_id [5, 6]
      (years.foldl (fun acc year => acc ∪ lib year) ∅) ∅
    refine ⟨hwk, fun s => ?_, fun s => ?_⟩
    · rw [hhol s, mem_foldl_union]
      simp
    · rw [hmk s]
      simp
  | none =>
    rw [hl] at hr
    cases hstore : store calendar_id with
    | none =>
      rw [hstore] at hr
      cases hr
    | some rec =>
      rw [hstore] at hr
      have hr' := Option.some.inj hr
      subst hr'
      obtain ⟨hwk, hhol, hmk⟩ := applyCustom_spec store calendar_id [5, 6] ∅ ∅
      refine ⟨by rw [hwk, hstore], fun s => ?_, fun s => ?_⟩
      · rw [hhol s]
        simp [hstore]
      · rw [hmk s]
        simp [hstore]

theorem get_calendar_rules_characterization_witness :
    (([5, 6] : List Nat)
        = match (none : Option OverrideRecord) with
          | some custom =>
            match custom.weekend_days with
            | some w => w
            | none => [5, 6]
          | none => [5, 6])
    ∧ (∀ s : String, s ∈ ["2024-07-04"] ↔
        ((∃ lib, providerLookup
              (fun c _ => if c = "US" then
                some (fun y => if y = 2024 then ({"2024-07-04"} : Finset String) else ∅)
              else none) "US"
            = some lib ∧ ∃ y ∈ [2024], s ∈ lib y)
          ∨ (∃ custom hl, (none : Option OverrideRecord) = some custom
              ∧ custom.holidays = some hl ∧ s ∈ hl)))
    ∧ (∀ s : String, s ∈ ([] : List String) ↔
        (∃ custom ml, (none : Option OverrideRecord) = some custom
          ∧ custom.makeup_days = some ml ∧ s ∈ ml)) :=
  get_calendar_rules_characterization
    (fun c _ => if c = "US" then
      some (fun y => if y = 2024 then ({"2024-07-04"} : Finset String) else ∅) else none)
    (fun _ => none) "US" [2024] ⟨[5, 6], ["2024-07-04"], []⟩ (by decide)

/-- C8 counterexample: a resolution that succeeds with the override record's
weekend list `[6, 5]` returned verbatim, which is not a sorted sequence: the
claim that all three fields are materialized as sorted sequences fails. -/
theorem get_calendar_rules_weekend_unsorted_cex :
    get_calendar_rules (fun _ _ => none)
        (fun id => if id = "X" then some ⟨some [6, 5], none, none⟩ else none) "X" [2024]
      = some ⟨[6, 5], [], []⟩
    ∧ ¬ List.Sorted (· < ·) ([6, 5] : List Nat) := by
  refine ⟨by decide, fun hs => ?_⟩
  have h5 := (List.sorted_cons.mp hs).1 5 (by simp)
  omega

/-- C8 amended: on every successful resolution the holiday and makeup-day
lists are materialized as deterministic sorted duplicate-free sequences;
the weekend list is either the default `[5, 6]` or the override record's
weekend list exactly as provided (not re-sorted or deduplicated). -/
theorem get_calendar_rules_materialization
    (provider : HolidayProvider) (store : OverrideStore) (calendar_id : String)
    (years : List Nat) (r : CalendarRules)
    (hr : get_calendar_rules provider store calendar_id years = some r) :
    List.Sorted (· < ·) r.holidays ∧ r.holidays.Nodup
    ∧ List.Sorted (· < ·) r.makeup_days ∧ r.makeup_days.Nodup
    ∧ (r.weekend_days = [5, 6]
        ∨ ∃ custom, store calendar_id = some custom
            ∧ custom.weekend_days = some r.weekend_days) := by
  simp only [get_calendar_rules] at hr
  cases hl : providerLookup provider calendar_id with
  | some lib =>
    rw [hl] at hr
    have hr' := Option.some.inj hr
    subst hr'
    obtain ⟨h1, h2, h3, h4⟩ := applyCustom_sorted store calendar_id [5, 6]
      (years.foldl (fun acc year => acc ∪ lib year) ∅) ∅
    exact ⟨h1, h2, h3, h4, applyCustom_weekend store calendar_id [5, 6]
      (years.foldl (fun acc year => acc ∪ lib year) ∅) ∅⟩
  | none =>
    rw [hl] at hr
    cases hstore : store calendar_id with
    | none =>
      rw [hstore] at hr
      cases hr
    | some rec =>
      rw [hstore] at hr
      have hr' := Option.some.inj hr
      subst hr'
      obtain ⟨h1, h2, h3, h4⟩ := applyCustom_sorted store calendar_id [5, 6] ∅ ∅
      obtain hw | ⟨custom, hc, hcw⟩ := applyCustom_weekend store calendar_id [5, 6] ∅ ∅
      · exact ⟨h1, h2, h3, h4, Or.inl hw⟩
      · exact ⟨h1, h2, h3, h4, Or.inr ⟨custom, by rw [← hstore, hc], hcw⟩⟩

theorem get_calendar_rules_materialization_witness :
    List.Sorted (· < ·) ([] : List String) ∧ ([] : List String).Nodup
    ∧ List.Sorted (· < ·) ([] : List String) ∧ ([] : List String).Nodup
    ∧ (([6, 5] : List Nat) = [5, 6]
        ∨ ∃ custom, (fun id => if id = "X2" then
              some (OverrideRecord.mk (some [6, 5]) none none) else none) "X2"
            = some custom
            ∧ custom.weekend_days = some [6, 5]) :=
  get_calendar_rules_materialization (fun _ _ => none)
    (fun id => if id = "X2" then some ⟨some [6, 5], none, none⟩ else none) "X2" [2024]
    ⟨[6, 5], [], []⟩ (by decide)
